import Mathlib

/-!
Verification of the postcard layout/compositing scripts
(`boxwork.py`, `imageeditor.py`) against their specification.

The Python sources are shallowly embedded below: pure helper functions
become Lean functions on `Nat`/`Int`/`Rat` (Python's exact rational
values replace IEEE floats; `int(...)` truncation is `ratTrunc`,
Python's banker's `round(...)` used by the image library's crop is
`pyRound`), raster images become a `width`/`height`/pixel-function
record, and Python exceptions become `Except` values.
-/

namespace Postcard

/-- Python `int(x)` on a non-negative or negative rational: truncation
toward zero. -/
def ratTrunc (q : ℚ) : ℤ :=
  if q < 0 then -(Int.floor (-q)) else Int.floor q

/-- Python `round(x)` (as applied by the image library to crop-box
coordinates): round half to even. -/
def pyRound (q : ℚ) : ℤ :=
  if q - Int.floor q = 1/2 then
    (if 2 ∣ (Int.floor q : ℤ) then Int.floor q else Int.floor q + 1)
  else round q

/-! ## Caption auto-fit binary search (`boxwork.py`, `fit_font`)

`fit_font` measures every caption line at a candidate point size and
accepts the size iff the widest line fits the available width and the
stacked height (with `int(0.15*mid)` inter-line gaps, `15*pt/100` in
exact arithmetic) fits the available height.  Text lines are abstracted
to a type `α` measured by `dims : pt → line → (width, height)`. -/

/-- The inter-line gap `int(0.15 * mid)` of `fit_font`. -/
def gapPx (pt : ℕ) : ℕ := 15 * pt / 100

/-- The acceptance test of one iteration of `fit_font`:
`max(line_widths) <= max_w and total_h <= max_h` where
`total_h = sum(line_heights) + (len(lines) - 1) * int(0.15 * mid)`. -/
def fitAccept {α : Type} (dims : ℕ → α → ℕ × ℕ) (lines : List α)
    (maxW maxH : ℕ) (pt : ℕ) : Bool :=
  ((lines.map fun l => (dims pt l).1).foldr max 0 ≤ maxW) &&
  ((lines.map fun l => (dims pt l).2).sum + (lines.length - 1) * gapPx pt ≤ maxH)

/-- The `while lo < hi` loop of `fit_font`:
`mid = (lo + hi + 1) // 2`; on acceptance `lo = mid`, else `hi = mid - 1`. -/
def fitLoop (accept : ℕ → Bool) (lo hi : ℕ) : ℕ :=
  if h : lo < hi then
    let mid := (lo + hi + 1) / 2
    if accept mid then fitLoop accept mid hi
    else fitLoop accept lo (mid - 1)
  else lo
termination_by hi - lo
decreasing_by
  all_goals simp_wf
  all_goals omega

/-- `fit_font(draw, lines, max_w, max_h)` of `boxwork.py`, returning the
resolved integer point size (the size `lo` handed to `pick_font` on
return).  Search range `[6, 600]`. -/
def fit_font {α : Type} (dims : ℕ → α → ℕ × ℕ) (lines : List α)
    (maxW maxH : ℕ) : ℕ :=
  fitLoop (fitAccept dims lines maxW maxH) 6 600

theorem fitLoop_eq (accept : ℕ → Bool) (lo hi : ℕ) :
    fitLoop accept lo hi =
      if _h : lo < hi then
        (if accept ((lo + hi + 1) / 2) then fitLoop accept ((lo + hi + 1) / 2) hi
         else fitLoop accept lo ((lo + hi + 1) / 2 - 1))
      else lo := by
  rw [fitLoop]

/-- Loop invariant of the binary search: starting from an accepted `lo`,
with acceptance antitone, the loop returns the largest accepted size
`≤ hi`. -/
theorem fitLoop_spec (accept : ℕ → Bool)
    (mono : ∀ s t : ℕ, s ≤ t → accept t = true → accept s = true) :
    ∀ n lo hi : ℕ, hi - lo ≤ n → lo ≤ hi → accept lo = true →
      lo ≤ fitLoop accept lo hi ∧ fitLoop accept lo hi ≤ hi ∧
      accept (fitLoop accept lo hi) = true ∧
      ∀ s : ℕ, s ≤ hi → accept s = true → s ≤ fitLoop accept lo hi := by
  intro n
  induction n with
  | zero =>
    intro lo hi hn hle hacc
    have heq : lo = hi := by omega
    subst heq
    rw [fitLoop_eq, dif_neg (lt_irrefl _)]
    exact ⟨le_refl _, le_refl _, hacc, fun s hs _ => hs⟩
  | succ n ih =>
    intro lo hi hn hle hacc
    by_cases hlt : lo < hi
    · rw [fitLoop_eq, dif_pos hlt]
      cases hmid : accept ((lo + hi + 1) / 2) with
      | true =>
        rw [if_pos rfl]
        have h1 : hi - (lo + hi + 1) / 2 ≤ n := by omega
        have h2 : (lo + hi + 1) / 2 ≤ hi := by omega
        obtain ⟨a, b, c, d⟩ := ih ((lo + hi + 1) / 2) hi h1 h2 hmid
        exact ⟨le_trans (by omega) a, b, c, d⟩
      | false =>
        rw [if_neg Bool.false_ne_true]
        have h1 : (lo + hi + 1) / 2 - 1 - lo ≤ n := by omega
        have h2 : lo ≤ (lo + hi + 1) / 2 - 1 := by omega
        obtain ⟨a, b, c, d⟩ := ih lo ((lo + hi + 1) / 2 - 1) h1 h2 hacc
        refine ⟨a, by omega, c, fun s hs hsacc => ?_⟩
        by_cases hbig : s ≤ (lo + hi + 1) / 2 - 1
        · exact d s hbig hsacc
        · exfalso
          have hms : (lo + hi + 1) / 2 ≤ s := by omega
          have := mono _ s hms hsacc
          rw [hmid] at this
          exact Bool.false_ne_true this
    · rw [fitLoop_eq, dif_neg hlt]
      exact ⟨le_refl _, hle, hacc, fun s hs _ => by omega⟩

/-- Concrete font metric used to witness the auto-fit theorem: a line
measures `pt` wide and `pt` tall at point size `pt` (lines indexed by `ℕ`). -/
def wDims (pt : ℕ) (_l : ℕ) : ℕ × ℕ := (pt, pt)

/-- C1: for every non-empty list of caption lines, every available width
and height, and any font-metric function for which the `fit_font`
acceptance test (every line width ≤ available width and total stacked
height with `0.15*size` inter-line gaps ≤ available height) is monotonic
in point size, the binary search returns the largest accepted integer
point size in `[6, 600]` (some accepted size exists iff size 6 is
accepted, by monotonicity). -/
theorem fit_font_finds_largest {α : Type} (dims : ℕ → α → ℕ × ℕ)
    (lines : List α) (maxW maxH : ℕ) (_hne : lines ≠ [])
    (mono : ∀ s t : ℕ, s ≤ t → fitAccept dims lines maxW maxH t = true →
      fitAccept dims lines maxW maxH s = true)
    (h6 : fitAccept dims lines maxW maxH 6 = true) :
    6 ≤ fit_font dims lines maxW maxH ∧ fit_font dims lines maxW maxH ≤ 600 ∧
    fitAccept dims lines maxW maxH (fit_font dims lines maxW maxH) = true ∧
    ∀ s : ℕ, 6 ≤ s → s ≤ 600 → fitAccept dims lines maxW maxH s = true →
      s ≤ fit_font dims lines maxW maxH := by
  obtain ⟨a, b, c, d⟩ := fitLoop_spec (fitAccept dims lines maxW maxH) mono
    594 6 600 (by omega) (by omega) h6
  exact ⟨a, b, c, fun s _ hs hsacc => d s hs hsacc⟩

/-- Witness for C1 at a concrete monotone metric, two lines, box 700×2000. -/
theorem fit_font_finds_largest_witness :
    6 ≤ fit_font wDims [0, 1] 700 2000 ∧ fit_font wDims [0, 1] 700 2000 ≤ 600 ∧
    fitAccept wDims [0, 1] 700 2000 (fit_font wDims [0, 1] 700 2000) = true ∧
    ∀ s : ℕ, 6 ≤ s → s ≤ 600 → fitAccept wDims [0, 1] 700 2000 s = true →
      s ≤ fit_font wDims [0, 1] 700 2000 :=
  fit_font_finds_largest wDims [0, 1] 700 2000 (by simp)
    (by
      intro s t hst h
      simp only [fitAccept, wDims, gapPx, List.map_cons, List.map_nil,
        List.foldr_cons, List.foldr_nil, List.sum_cons, List.sum_nil,
        List.length_cons, List.length_nil, Bool.and_eq_true,
        decide_eq_true_eq] at h ⊢
      omega)
    (by decide)

/-! ## Aspect-ratio crop (`largest_crop` of `boxwork.py` / `imageeditor.py`)

`largest_crop` compares `w / h` with the target ratio, trims the longer
axis to `int(h * ratio)` (resp. `int(w / ratio)`) and centres the kept
slice with a half-pixel-precision float box; the image library rounds
each box coordinate half-to-even before cropping.  Python raises
`ZeroDivisionError` on `w / h` when `h = 0` and on `w / ratio` when
`ratio = 0`. -/

/-- Python exceptions raised by the embedded code. -/
inductive PyErr
  | zeroDivision
  | valueError
deriving DecidableEq

/-- A crop rectangle `(x0, y0, x1, y1)` after the image library rounded
the float box to integers. -/
structure CropBox where
  x0 : ℤ
  y0 : ℤ
  x1 : ℤ
  y1 : ℤ
deriving DecidableEq

/-- `largest_crop(img, ratio)`: symmetric centred crop of a `w×h` image
to the target `ratio`, exactly as in the source (exact rationals in
place of floats; `img.crop` rounds every coordinate half-to-even). -/
def largest_crop (w h : ℕ) (ratio : ℚ) : Except PyErr CropBox :=
  if h = 0 then Except.error PyErr.zeroDivision
  else if (w : ℚ) / h > ratio then
    let nw : ℤ := ratTrunc ((h : ℚ) * ratio)
    let left : ℚ := ((w : ℚ) - nw) / 2
    Except.ok ⟨pyRound left, 0, pyRound (left + nw), (h : ℤ)⟩
  else if ratio = 0 then Except.error PyErr.zeroDivision
  else
    let nh : ℤ := ratTrunc ((w : ℚ) / ratio)
    let top : ℚ := ((h : ℚ) - nh) / 2
    Except.ok ⟨0, pyRound top, (w : ℤ), pyRound (top + nh)⟩

theorem ratTrunc_eq_floor (q : ℚ) (hq : 0 ≤ q) : ratTrunc q = Int.floor q := by
  unfold ratTrunc
  rw [if_neg (not_lt.mpr hq)]

theorem pyRound_intCast (m : ℤ) : pyRound (m : ℚ) = m := by
  unfold pyRound
  rw [Int.floor_intCast]
  norm_num

theorem pyRound_int_add_half (m : ℤ) :
    pyRound ((m : ℚ) + 1/2) = if 2 ∣ m then m else m + 1 := by
  unfold pyRound
  have hf : ⌊(m : ℚ) + 1/2⌋ = m := by
    rw [show ((m : ℚ) + 1/2) = (m : ℚ) + (1/2 : ℚ) by ring, Int.floor_int_add]
    norm_num
  rw [hf]
  norm_num

/-- Half-to-even rounding of an integer half: the only shapes produced by
the centred crop boxes. -/
theorem pyRound_int_div_two (k : ℤ) :
    pyRound ((k : ℚ) / 2) =
      if k % 2 = 0 then k / 2
      else (if 2 ∣ (k / 2) then k / 2 else k / 2 + 1) := by
  rcases Int.emod_two_eq_zero_or_one k with h2 | h2
  · set m := k / 2 with hm
    have hk : k = 2 * m := by omega
    have harg : (k : ℚ) / 2 = (m : ℚ) := by
      rw [hk]
      push_cast
      ring
    rw [harg, pyRound_intCast, if_pos h2]
  · set m := k / 2 with hm
    have hk : k = 2 * m + 1 := by omega
    have harg : (k : ℚ) / 2 = (m : ℚ) + 1/2 := by
      rw [hk]
      push_cast
      ring
    rw [harg, pyRound_int_add_half, if_neg (show ¬ k % 2 = 0 by omega)]

/-- C10: for every source image with positive width and height and every
positive target ratio, the crop rectangle computed by `largest_crop` lies
inside the source bounds: `0 ≤ x0`, `x1 ≤ w`, `0 ≤ y0`, `y1 ≤ h`. -/
theorem largest_crop_in_bounds (w h : ℕ) (ratio : ℚ) (hw : 0 < w)
    (hh : 0 < h) (hr : 0 < ratio) (box : CropBox)
    (hok : largest_crop w h ratio = Except.ok box) :
    0 ≤ box.x0 ∧ box.x1 ≤ (w : ℤ) ∧ 0 ≤ box.y0 ∧ box.y1 ≤ (h : ℤ) := by
  have hh0 : (0 : ℚ) < (h : ℚ) := by exact_mod_cast hh
  unfold largest_crop at hok
  rw [if_neg (by omega : ¬ h = 0)] at hok
  by_cases hcase : (w : ℚ) / h > ratio
  · rw [if_pos hcase] at hok
    simp only [Except.ok.injEq] at hok
    subst hok
    dsimp only
    set nw : ℤ := ratTrunc ((h : ℚ) * ratio) with hnwdef
    have hq : (0 : ℚ) ≤ (h : ℚ) * ratio := by positivity
    have hnw0 : 0 ≤ nw := by
      rw [hnwdef, ratTrunc_eq_floor _ hq]
      exact Int.floor_nonneg.mpr hq
    have hnww : nw < (w : ℤ) := by
      rw [hnwdef, ratTrunc_eq_floor _ hq]
      have hlt : (h : ℚ) * ratio < ((w : ℤ) : ℚ) := by
        rw [gt_iff_lt, lt_div_iff hh0] at hcase
        push_cast
        linarith
      exact Int.floor_lt.mpr hlt
    have hx0 : 0 ≤ pyRound (((w : ℚ) - nw) / 2) := by
      rw [show ((w : ℚ) - nw) / 2 = (((w : ℤ) - nw : ℤ) : ℚ) / 2 by push_cast; ring,
        pyRound_int_div_two]
      by_cases h2 : ((w : ℤ) - nw) % 2 = 0
      · rw [if_pos h2]; omega
      · rw [if_neg h2]
        by_cases hd : 2 ∣ (((w : ℤ) - nw) / 2)
        · rw [if_pos hd]; omega
        · rw [if_neg hd]; omega
    have hx1 : pyRound (((w : ℚ) - nw) / 2 + nw) ≤ (w : ℤ) := by
      rw [show ((w : ℚ) - nw) / 2 + nw = (((w : ℤ) + nw : ℤ) : ℚ) / 2 by push_cast; ring,
        pyRound_int_div_two]
      by_cases h2 : ((w : ℤ) + nw) % 2 = 0
      · rw [if_pos h2]; omega
      · rw [if_neg h2]
        by_cases hd : 2 ∣ (((w : ℤ) + nw) / 2)
        · rw [if_pos hd]; omega
        · rw [if_neg hd]; omega
    exact ⟨hx0, hx1, le_refl 0, le_refl _⟩
  · rw [if_neg hcase, if_neg hr.ne'] at hok
    simp only [Except.ok.injEq] at hok
    subst hok
    dsimp only
    set nh : ℤ := ratTrunc ((w : ℚ) / ratio) with hnhdef
    have hq : (0 : ℚ) ≤ (w : ℚ) / ratio := by positivity
    have hnh0 : 0 ≤ nh := by
      rw [hnhdef, ratTrunc_eq_floor _ hq]
      exact Int.floor_nonneg.mpr hq
    have hnhh : nh ≤ (h : ℤ) := by
      rw [hnhdef, ratTrunc_eq_floor _ hq]
      have hle : (w : ℚ) / ratio ≤ ((h : ℤ) : ℚ) := by
        rw [gt_iff_lt, not_lt] at hcase
        rw [div_le_iff hr]
        rw [div_le_iff hh0] at hcase
        push_cast
        linarith
      calc ⌊(w : ℚ) / ratio⌋ ≤ ⌊((h : ℤ) : ℚ)⌋ := Int.floor_le_floor hle
        _ = (h : ℤ) := Int.floor_intCast _
    have hy0 : 0 ≤ pyRound (((h : ℚ) - nh) / 2) := by
      rw [show ((h : ℚ) - nh) / 2 = (((h : ℤ) - nh : ℤ) : ℚ) / 2 by push_cast; ring,
        pyRound_int_div_two]
      by_cases h2 : ((h : ℤ) - nh) % 2 = 0
      · rw [if_pos h2]; omega
      · rw [if_neg h2]
        by_cases hd : 2 ∣ (((h : ℤ) - nh) / 2)
        · rw [if_pos hd]; omega
        · rw [if_neg hd]; omega
    have hy1 : pyRound (((h : ℚ) - nh) / 2 + nh) ≤ (h : ℤ) := by
      rw [show ((h : ℚ) - nh) / 2 + nh = (((h : ℤ) + nh : ℤ) : ℚ) / 2 by push_cast; ring,
        pyRound_int_div_two]
      by_cases h2 : ((h : ℤ) + nh) % 2 = 0
      · rw [if_pos h2]; omega
      · rw [if_neg h2]
        by_cases hd : 2 ∣ (((h : ℤ) + nh) / 2)
        · rw [if_pos hd]; omega
        · rw [if_neg hd]; omega
    exact ⟨le_refl 0, le_refl _, hy0, hy1⟩

/-- Witness for C10 at the postcard's own parameters: a 3000×4000 source
cropped to ratio 2/3. -/
theorem largest_crop_in_bounds_witness :
    ∃ box : CropBox, largest_crop 3000 4000 (2/3) = Except.ok box ∧
      0 ≤ box.x0 ∧ box.x1 ≤ (3000 : ℤ) ∧ 0 ≤ box.y0 ∧ box.y1 ≤ (4000 : ℤ) := by
  have hbox : largest_crop 3000 4000 (2/3) = Except.ok ⟨167, 0, 2833, 4000⟩ := by
    norm_num [largest_crop, ratTrunc, pyRound, round_eq]
  exact ⟨⟨167, 0, 2833, 4000⟩, hbox,
    largest_crop_in_bounds 3000 4000 (2/3) (by norm_num) (by norm_num)
      (by norm_num) _ hbox⟩

/-- Half-to-even rounding of an integer half either hits the floor
`k / 2` or, only when `k` is odd, the value `k / 2 + 1`. -/
theorem pyRound_half_cases (k : ℤ) :
    pyRound ((k : ℚ) / 2) = k / 2 ∨
      (k % 2 = 1 ∧ pyRound ((k : ℚ) / 2) = k / 2 + 1) := by
  rw [pyRound_int_div_two]
  rcases Int.emod_two_eq_zero_or_one k with h2 | h2
  · rw [if_pos h2]
    exact Or.inl rfl
  · rw [if_neg (show ¬ k % 2 = 0 by omega)]
    by_cases hd : 2 ∣ (k / 2)
    · rw [if_pos hd]
      exact Or.inl rfl
    · rw [if_neg hd]
      exact Or.inr ⟨h2, rfl⟩

/-- C5 (amended): for every positive source and positive target ratio the
crop succeeds; the trimmed dimension is within two pixels of the exact
target (`floor` of the exact value, then each box edge moved by at most
one half-to-even rounding step), the kept region is centred with leading
and trailing trims differing by at most one pixel, and an exact ratio
match crops nothing. -/
theorem largest_crop_geometry (w h : ℕ) (ratio : ℚ) (hw : 0 < w)
    (hh : 0 < h) (hr : 0 < ratio) :
    ∃ box : CropBox, largest_crop w h ratio = Except.ok box ∧
      ((w : ℚ) / h > ratio →
        box.y0 = 0 ∧ box.y1 = (h : ℤ) ∧
        |((box.x1 - box.x0 : ℤ) : ℚ) - (h : ℚ) * ratio| < 2 ∧
        |box.x0 - ((w : ℤ) - box.x1)| ≤ 1) ∧
      (¬ ((w : ℚ) / h > ratio) →
        box.x0 = 0 ∧ box.x1 = (w : ℤ) ∧
        |((box.y1 - box.y0 : ℤ) : ℚ) - (w : ℚ) / ratio| < 2 ∧
        |box.y0 - ((h : ℤ) - box.y1)| ≤ 1) ∧
      ((w : ℚ) / h = ratio → box = ⟨0, 0, (w : ℤ), (h : ℤ)⟩) := by
  have hh0 : (0 : ℚ) < (h : ℚ) := by exact_mod_cast hh
  have hw0 : (0 : ℚ) < (w : ℚ) := by exact_mod_cast hw
  unfold largest_crop
  rw [if_neg (by omega : ¬ h = 0)]
  by_cases hcase : (w : ℚ) / h > ratio
  · rw [if_pos hcase]
    refine ⟨_, rfl, ?_, fun hn => absurd hcase hn, fun heq => absurd hcase (by rw [heq]; exact lt_irrefl ratio)⟩
    intro _
    dsimp only
    set nw : ℤ := ratTrunc ((h : ℚ) * ratio) with hnwdef
    have hq : (0 : ℚ) ≤ (h : ℚ) * ratio := by positivity
    have hfl : nw = ⌊(h : ℚ) * ratio⌋ := by rw [hnwdef, ratTrunc_eq_floor _ hq]
    have hflo : (nw : ℚ) ≤ (h : ℚ) * ratio := by rw [hfl]; exact Int.floor_le _
    have hfhi : (h : ℚ) * ratio < (nw : ℚ) + 1 := by
      rw [hfl]; exact Int.lt_floor_add_one _
    have hx0arg : ((w : ℚ) - nw) / 2 = (((w : ℤ) - nw : ℤ) : ℚ) / 2 := by
      push_cast; ring
    have hx1arg : ((w : ℚ) - nw) / 2 + nw = (((w : ℤ) + nw : ℤ) : ℚ) / 2 := by
      push_cast; ring
    rw [hx1arg, hx0arg]
    rcases pyRound_half_cases ((w : ℤ) - nw) with h0 | ⟨hodd0, h0⟩ <;>
      rcases pyRound_half_cases ((w : ℤ) + nw) with h1 | ⟨hodd1, h1⟩ <;>
      rw [h0, h1] <;>
      refine ⟨rfl, rfl, ?_, abs_le.mpr ⟨by omega, by omega⟩⟩ <;>
      · rw [abs_lt]
        have hzc : ((w : ℤ) + nw) / 2 - ((w : ℤ) - nw) / 2 = nw := by omega
        have hzc' : ((((w : ℤ) + nw) / 2 : ℤ) : ℚ) - ((((w : ℤ) - nw) / 2 : ℤ) : ℚ) = (nw : ℚ) := by
          exact_mod_cast hzc
        constructor <;> push_cast <;> linarith
  · rw [if_neg hcase, if_neg hr.ne']
    have hle : (w : ℚ) / ratio ≤ (h : ℚ) := by
      rw [gt_iff_lt, not_lt] at hcase
      rw [div_le_iff₀ hr]
      rw [div_le_iff₀ hh0] at hcase
      linarith
    set nh : ℤ := ratTrunc ((w : ℚ) / ratio) with hnhdef
    have hq : (0 : ℚ) ≤ (w : ℚ) / ratio := by positivity
    have hfl : nh = ⌊(w : ℚ) / ratio⌋ := by rw [hnhdef, ratTrunc_eq_floor _ hq]
    have hflo : (nh : ℚ) ≤ (w : ℚ) / ratio := by rw [hfl]; exact Int.floor_le _
    have hfhi : (w : ℚ) / ratio < (nh : ℚ) + 1 := by
      rw [hfl]; exact Int.lt_floor_add_one _
    refine ⟨_, rfl, fun hgt => absurd hgt hcase, ?_, ?_⟩
    · intro _
      dsimp only
      have hy0arg : ((h : ℚ) - nh) / 2 = (((h : ℤ) - nh : ℤ) : ℚ) / 2 := by
        push_cast; ring
      have hy1arg : ((h : ℚ) - nh) / 2 + nh = (((h : ℤ) + nh : ℤ) : ℚ) / 2 := by
        push_cast; ring
      rw [hy1arg, hy0arg]
      rcases pyRound_half_cases ((h : ℤ) - nh) with h0 | ⟨hodd0, h0⟩ <;>
        rcases pyRound_half_cases ((h : ℤ) + nh) with h1 | ⟨hodd1, h1⟩ <;>
        rw [h0, h1] <;>
        refine ⟨rfl, rfl, ?_, abs_le.mpr ⟨by omega, by omega⟩⟩ <;>
        · rw [abs_lt]
          have hzc : ((h : ℤ) + nh) / 2 - ((h : ℤ) - nh) / 2 = nh := by omega
          have hzc' : ((((h : ℤ) + nh) / 2 : ℤ) : ℚ) - ((((h : ℤ) - nh) / 2 : ℤ) : ℚ) = (nh : ℚ) := by
            exact_mod_cast hzc
          constructor <;> push_cast <;> linarith
    · intro heq
      have hweq : (w : ℚ) / ratio = (h : ℚ) := by
        rw [← heq]
        field_simp
      have hnh : nh = ((h : ℕ) : ℤ) := by
        rw [hfl, hweq]
        exact_mod_cast Int.floor_natCast h
      simp only [CropBox.mk.injEq]
      have htop : ((h : ℚ) - (nh : ℚ)) / 2 = ((0 : ℤ) : ℚ) := by
        rw [hnh]; push_cast; ring
      have htop1 : ((h : ℚ) - (nh : ℚ)) / 2 + (nh : ℚ) = (((h : ℕ) : ℤ) : ℚ) := by
        rw [hnh]; push_cast; ring
      refine ⟨trivial, ?_, trivial, ?_⟩
      · rw [htop, pyRound_intCast]
      · rw [htop1, pyRound_intCast]

/-- C5 counterexample to the claim as stated: a 6×10 source cropped to
target ratio 39/100 keeps a width of 2 pixels while the exact target
width is 3.9 — more than one pixel off (both half-pixel crop-box edges
are rounded inward by round-half-to-even). -/
theorem largest_crop_one_pixel_cex :
    largest_crop 6 10 (39/100) = Except.ok ⟨2, 0, 4, 10⟩ ∧
    ¬ (|((4 - 2 : ℤ) : ℚ) - (39/100) * 10| ≤ 1) := by
  constructor
  · norm_num [largest_crop, ratTrunc, pyRound, round_eq]
  · rw [abs_le]
    norm_num

/-- Witness for the amended C5 theorem at a 4×6 source with target ratio
2/3 (exact match: the crop is the identity). -/
theorem largest_crop_geometry_witness :
    ∃ box : CropBox, largest_crop 4 6 (2/3) = Except.ok box ∧
      (((4 : ℕ) : ℚ) / ((6 : ℕ) : ℚ) > 2/3 →
        box.y0 = 0 ∧ box.y1 = ((6 : ℕ) : ℤ) ∧
        |((box.x1 - box.x0 : ℤ) : ℚ) - ((6 : ℕ) : ℚ) * (2/3)| < 2 ∧
        |box.x0 - (((4 : ℕ) : ℤ) - box.x1)| ≤ 1) ∧
      (¬ (((4 : ℕ) : ℚ) / ((6 : ℕ) : ℚ) > 2/3) →
        box.x0 = 0 ∧ box.x1 = ((4 : ℕ) : ℤ) ∧
        |((box.y1 - box.y0 : ℤ) : ℚ) - ((4 : ℕ) : ℚ) / (2/3)| < 2 ∧
        |box.y0 - (((6 : ℕ) : ℤ) - box.y1)| ≤ 1) ∧
      (((4 : ℕ) : ℚ) / ((6 : ℕ) : ℚ) = 2/3 → box = ⟨0, 0, ((4 : ℕ) : ℤ), ((6 : ℕ) : ℤ)⟩) :=
  largest_crop_geometry 4 6 (2/3) (by norm_num) (by norm_num) (by norm_num)

/-- C7 counterexample: a zero-width source with positive height does not
make the cropper fail at all — `largest_crop` succeeds and returns a
degenerate zero-width crop box (there is no InvalidInputError anywhere
in the code). -/
theorem largest_crop_zero_width_cex :
    largest_crop 0 5 (2/3) = Except.ok ⟨0, 2, 0, 2⟩ := by
  norm_num [largest_crop, ratTrunc, pyRound, round_eq]

/-- C7 (amended): a zero-height source makes the cropper raise
`ZeroDivisionError` (from `w / h`), while a zero-width source with
positive height succeeds and returns a degenerate zero-width crop. -/
theorem largest_crop_zero_dims (w h : ℕ) (ratio : ℚ) (hr : 0 < ratio) :
    largest_crop w 0 ratio = Except.error PyErr.zeroDivision ∧
    (0 < h → ∃ box : CropBox, largest_crop 0 h ratio = Except.ok box ∧
      box.x0 = 0 ∧ box.x1 = 0) := by
  constructor
  · unfold largest_crop
    rw [if_pos rfl]
  · intro hh
    unfold largest_crop
    rw [if_neg (by omega : ¬ h = 0)]
    have hnotgt : ¬ (((0 : ℕ) : ℚ) / h > ratio) := by
      rw [Nat.cast_zero, zero_div]
      exact not_lt.mpr hr.le
    rw [if_neg hnotgt, if_neg hr.ne']
    exact ⟨_, rfl, rfl, rfl⟩

/-- Witness for the amended C7 theorem at `w = 2`, `h = 5`, ratio 2/3. -/
theorem largest_crop_zero_dims_witness :
    largest_crop 2 0 (2/3) = Except.error PyErr.zeroDivision ∧
    (∃ box : CropBox, largest_crop 0 5 (2/3) = Except.ok box ∧
      box.x0 = 0 ∧ box.x1 = 0) :=
  ⟨(largest_crop_zero_dims 2 5 (2/3) (by norm_num)).1,
    (largest_crop_zero_dims 2 5 (2/3) (by norm_num)).2 (by norm_num)⟩

/-! ## Gradient shadow compositor (`add_shadow_gradient` of
`boxwork.py` / `imageeditor.py`)

The compositor short-circuits on a disabled/zero shadow, computes
`grad_h = int(inner_h * SHADOW_HEIGHT_FRAC)`, builds a 1-pixel vertical
alpha ramp with `alpha = int(SHADOW_OPACITY * 255 * (y / (grad_h - 1)))`,
stretches it to the inner width, and alpha-pastes the coloured band so
its bottom edge sits on the bottom edge of the inner photo area.
Library failure order mirrored below: creating the 1×`grad_h` ramp
rejects a negative height; the ramp loop divides by `grad_h - 1`
(zero exactly when `grad_h = 1`); stretching to a negative inner width
rejects it. -/

/-- An in-memory RGB raster: dimensions plus a total pixel function
(values outside the raster are irrelevant). -/
structure Img where
  width : ℕ
  height : ℕ
  pix : ℕ → ℕ → ℕ × ℕ × ℕ

/-- The shadow configuration constants read by `add_shadow_gradient`
(`ADD_SHADOW`, `SHADOW_COLOR`, `SHADOW_OPACITY`, `SHADOW_HEIGHT_FRAC`). -/
structure ShadowCfg where
  addShadow : Bool
  color : ℕ × ℕ × ℕ
  opacity : ℚ
  heightFrac : ℚ

/-- `MULDIV255(a, b)` of the image library's C paste kernel:
`tmp = a*b + 128; ((tmp >> 8) + tmp) >> 8`. -/
def mulDiv255 (a b : ℕ) : ℕ := ((a * b + 128) / 256 + (a * b + 128)) / 256

/-- One-channel alpha blend used when pasting with an alpha mask. -/
def blendChan (mask d s : ℕ) : ℕ := mulDiv255 d (255 - mask) + mulDiv255 s mask

/-- Row `y` (0-based from the band top) of the alpha ramp:
`int(SHADOW_OPACITY * 255 * (y / (grad_h - 1)))`; only reached with
`grad_h ≥ 2`, since `grad_h = 1` raises before any row is written. -/
def shadowAlpha (opacity : ℚ) (gradH : ℕ) (y : ℤ) : ℕ :=
  (ratTrunc (opacity * 255 * ((y : ℚ) / ((gradH : ℚ) - 1)))).toNat

/-- The `base_rgba.paste(shadow, (border_px, paste_y), shadow)` step with
`paste_y = border_px + inner_h - grad_h`: pixels inside the paste
rectangle are alpha-blended with the shadow colour using their ramp-row
alpha; all other pixels are untouched (RGB→RGBA→RGB conversion is the
identity on the colour channels). -/
def pasteShadow (cfg : ShadowCfg) (base : Img) (borderPx innerW : ℕ)
    (innerH : ℤ) (gradH : ℕ) : Img :=
  { width := base.width
    height := base.height
    pix := fun x y =>
      if (borderPx : ℤ) ≤ (x : ℤ) ∧ (x : ℤ) < (borderPx : ℤ) + innerW ∧
          (borderPx : ℤ) + innerH - gradH ≤ (y : ℤ) ∧
          (y : ℤ) < (borderPx : ℤ) + innerH ∧
          x < base.width ∧ y < base.height then
        let a := shadowAlpha cfg.opacity gradH
          ((y : ℤ) - ((borderPx : ℤ) + innerH - gradH))
        (blendChan a (base.pix x y).1 cfg.color.1,
         blendChan a (base.pix x y).2.1 cfg.color.2.1,
         blendChan a (base.pix x y).2.2 cfg.color.2.2)
      else base.pix x y }

/-- `add_shadow_gradient(base, border_px)` with the module constants
gathered into `cfg`. -/
def add_shadow_gradient (cfg : ShadowCfg) (base : Img) (borderPx : ℕ) :
    Except PyErr Img :=
  if cfg.addShadow = false ∨ cfg.opacity ≤ 0 ∨ cfg.heightFrac ≤ 0 then
    Except.ok base
  else
    let innerW : ℤ := (base.width : ℤ) - 2 * borderPx
    let innerH : ℤ := (base.height : ℤ) - 2 * borderPx
    let gradH : ℤ := ratTrunc ((innerH : ℚ) * cfg.heightFrac)
    if gradH < 0 then Except.error PyErr.valueError
    else if gradH = 1 then Except.error PyErr.zeroDivision
    else if innerW < 0 then Except.error PyErr.valueError
    else Except.ok (pasteShadow cfg base borderPx innerW.toNat innerH gradH.toNat)

/-- C4: a `ShadowSpec` with `opacity ≤ 0` or `heightFrac ≤ 0` makes the
compositor the identity: it returns the very canvas it was given. -/
theorem add_shadow_gradient_noop (cfg : ShadowCfg) (base : Img)
    (borderPx : ℕ) (hz : cfg.opacity ≤ 0 ∨ cfg.heightFrac ≤ 0) :
    add_shadow_gradient cfg base borderPx = Except.ok base := by
  unfold add_shadow_gradient
  rcases hz with hz | hz
  · rw [if_pos (Or.inr (Or.inl hz))]
  · rw [if_pos (Or.inr (Or.inr hz))]

/-- Concrete 6×6 canvas used by the shadow witnesses. -/
def wimg : Img := ⟨6, 6, fun _ _ => (7, 8, 9)⟩

/-- Witness for C4: zero opacity, nonzero height fraction. -/
theorem add_shadow_gradient_noop_witness :
    add_shadow_gradient ⟨true, (0, 0, 0), 0, 1/2⟩ wimg 5 = Except.ok wimg :=
  add_shadow_gradient_noop ⟨true, (0, 0, 0), 0, 1/2⟩ wimg 5 (Or.inl le_rfl)

/-- C2: with opacity 1 > 0 and height fraction 1/2 > 0 on a canvas whose
inner height is 2 (so `grad_h = int(2 * 0.5) = 1`), the compositor hits
`y / (grad_h - 1)` with a zero divisor and raises `ZeroDivisionError`
instead of completing. -/
theorem add_shadow_gradient_div_by_zero :
    add_shadow_gradient ⟨true, (0, 0, 0), 1, 1/2⟩ ⟨2, 2, fun _ _ => (0, 0, 0)⟩ 0 =
      Except.error PyErr.zeroDivision := by
  norm_num [add_shadow_gradient, ratTrunc]

/-- C3: for any `ShadowSpec` with `0 < heightFrac ≤ 1` and any margin, a
successful run of the compositor preserves the canvas dimensions and
leaves every pixel within `borderPx` of any canvas edge unchanged. -/
theorem add_shadow_gradient_border_untouched (cfg : ShadowCfg) (base : Img)
    (borderPx : ℕ) (hf0 : 0 < cfg.heightFrac) (hf1 : cfg.heightFrac ≤ 1)
    (out : Img) (hok : add_shadow_gradient cfg base borderPx = Except.ok out)
    (x y : ℕ)
    (hedge : x < borderPx ∨ y < borderPx ∨ base.width ≤ x + borderPx ∨
      base.height ≤ y + borderPx) :
    out.width = base.width ∧ out.height = base.height ∧
    out.pix x y = base.pix x y := by
  unfold add_shadow_gradient at hok
  by_cases hsc : cfg.addShadow = false ∨ cfg.opacity ≤ 0 ∨ cfg.heightFrac ≤ 0
  · rw [if_pos hsc] at hok
    obtain rfl : base = out := by injection hok
    exact ⟨rfl, rfl, rfl⟩
  · rw [if_neg hsc] at hok
    simp only [] at hok
    set innerW : ℤ := (base.width : ℤ) - 2 * borderPx with hiW
    set innerH : ℤ := (base.height : ℤ) - 2 * borderPx with hiH
    set gradH : ℤ := ratTrunc ((innerH : ℚ) * cfg.heightFrac) with hgH
    by_cases h1 : gradH < 0
    · rw [if_pos h1] at hok
      exact (Except.noConfusion hok)
    rw [if_neg h1] at hok
    by_cases h2 : gradH = 1
    · rw [if_pos h2] at hok
      exact (Except.noConfusion hok)
    rw [if_neg h2] at hok
    by_cases h3 : innerW < 0
    · rw [if_pos h3] at hok
      exact (Except.noConfusion hok)
    rw [if_neg h3] at hok
    obtain rfl : pasteShadow cfg base borderPx innerW.toNat innerH gradH.toNat = out := by
      injection hok
    have hgle : gradH = 0 ∨ (0 < innerH ∧ gradH ≤ innerH) := by
      by_cases hg : gradH = 0
      · exact Or.inl hg
      · right
        have hqpos : (0 : ℚ) < (innerH : ℚ) * cfg.heightFrac := by
          by_contra hq
          push_neg at hq
          have hle0 : gradH ≤ 0 := by
            rw [hgH]
            unfold ratTrunc
            by_cases hlt : ((innerH : ℚ)) * cfg.heightFrac < 0
            · rw [if_pos hlt]
              have h0 : 0 ≤ ⌊-((innerH : ℚ) * cfg.heightFrac)⌋ :=
                Int.floor_nonneg.mpr (by linarith)
              omega
            · rw [if_neg hlt]
              calc ⌊(innerH : ℚ) * cfg.heightFrac⌋ ≤ ⌊(0 : ℚ)⌋ :=
                    Int.floor_le_floor hq
                _ = 0 := Int.floor_zero
          omega
        have hiHpos : 0 < innerH := by
          by_contra hih
          push_neg at hih
          have hihq : (innerH : ℚ) ≤ 0 := by exact_mod_cast hih
          nlinarith
        refine ⟨hiHpos, ?_⟩
        have hle : (innerH : ℚ) * cfg.heightFrac ≤ (innerH : ℚ) := by
          have hihq : (0 : ℚ) < (innerH : ℚ) := by exact_mod_cast hiHpos
          nlinarith
        rw [hgH, ratTrunc_eq_floor _ (le_of_lt hqpos)]
        calc ⌊(innerH : ℚ) * cfg.heightFrac⌋ ≤ ⌊((innerH : ℤ) : ℚ)⌋ :=
              Int.floor_le_floor hle
          _ = innerH := Int.floor_intCast _
    refine ⟨rfl, rfl, ?_⟩
    unfold pasteShadow
    dsimp only
    have hWt : (innerW.toNat : ℤ) = innerW := Int.toNat_of_nonneg (by omega)
    have hGt : (gradH.toNat : ℤ) = gradH := Int.toNat_of_nonneg (by omega)
    rw [if_neg]
    intro hc
    obtain ⟨c1, c2, c3, c4, c5, c6⟩ := hc
    rw [hWt] at c2
    rw [hGt] at c3
    rcases hgle with hg | ⟨hip, hle⟩
    · rw [hg] at c3
      omega
    · rcases hedge with he | he | he | he <;> omega

/-- Shadow configuration used by the C3 witness. -/
def wcfg : ShadowCfg := ⟨true, (0, 0, 0), 1/2, 1/2⟩

/-- Witness for C3: 6×6 canvas, border 1, opacity 1/2, fraction 1/2; the
run succeeds and the corner pixel (0,0) is untouched. -/
theorem add_shadow_gradient_border_untouched_witness :
    add_shadow_gradient wcfg wimg 1 = Except.ok (pasteShadow wcfg wimg 1 4 4 2) ∧
    (pasteShadow wcfg wimg 1 4 4 2).pix 0 0 = wimg.pix 0 0 := by
  have hok : add_shadow_gradient wcfg wimg 1 =
      Except.ok (pasteShadow wcfg wimg 1 4 4 2) := by
    norm_num [add_shadow_gradient, ratTrunc, wcfg, wimg]
    rfl
  exact ⟨hok,
    (add_shadow_gradient_border_untouched wcfg wimg 1
      (by norm_num [wcfg]) (by norm_num [wcfg]) _ hok 0 0
      (Or.inl (by norm_num))).2.2⟩

/-! ## Caption placement (`main` of `boxwork.py`)

Vertical: `ty = H_PX - border_px - total_text_height + CAPTION_OFFSET_PX`
for the bottom anchor, `ty = border_px + CAPTION_OFFSET_PX` for top.
Horizontal per line `i`: center `tx = (W_PX - tw) // 2 + CAPTION_LINE_OFFSETS[i]`,
right `tx = W_PX - border_px - tw + CAPTION_LINE_OFFSETS[i]`, else (left)
`tx = border_px + CAPTION_LINE_OFFSETS[i]`.  The config strings are
modelled by inductives; the source's `else` branches are the `top` and
`left` constructors. -/

/-- `CAPTION_POS` anchor. -/
inductive Anchor
  | bottom
  | top

/-- `CAPTION_ALIGN` alignment (the source's `else` branch is `left`). -/
inductive Align
  | center
  | right
  | left

/-- Caption block start `ty` (y grows downward on the canvas). -/
def caption_ty (pos : Anchor) (hPx border totalH off : ℤ) : ℤ :=
  match pos with
  | Anchor.bottom => hPx - border - totalH + off
  | Anchor.top => border + off

/-- Caption line `tx`; Python `//` on ints is floor division, which `ℤ`
division matches for the positive divisor 2. -/
def caption_tx (align : Align) (wPx border tw off : ℤ) : ℤ :=
  match align with
  | Align.center => (wPx - tw) / 2 + off
  | Align.right => wPx - border - tw + off
  | Align.left => border + off

/-- C6: the code adds the vertical offset for both anchors, so with the
bottom anchor a positive offset makes `ty` larger — the text moves DOWN,
away from the image centre — contradicting the claim (and the source's
own `+ve moves text up (bottom)` comment).  At canvas height 1800,
border 30, text height 100: offset +75 yields `ty = 1745`, below the
zero-offset position 1670. -/
theorem caption_ty_bottom_moves_down :
    (∀ hPx border totalH off : ℤ,
      caption_ty Anchor.bottom hPx border totalH off =
        caption_ty Anchor.bottom hPx border totalH 0 + off) ∧
    caption_ty Anchor.bottom 1800 30 100 75 = 1745 ∧
    caption_ty Anchor.bottom 1800 30 100 0 = 1670 := by
  refine ⟨fun hPx border totalH off => ?_, by norm_num [caption_ty],
    by norm_num [caption_ty]⟩
  unfold caption_ty
  ring

/-- C8: rendered x positions per alignment: `left` is exactly
`marginPx + offset`, `right` is exactly `canvasWidth - marginPx -
lineWidth + offset`, and `center` is `(canvasWidth - lineWidth)/2 +
offset` up to the sub-pixel floor rounding of `// 2`. -/
theorem caption_tx_alignment (wPx border tw off : ℤ) :
    caption_tx Align.left wPx border tw off = border + off ∧
    caption_tx Align.right wPx border tw off = wPx - border - tw + off ∧
    |((caption_tx Align.center wPx border tw off : ℤ) : ℚ) -
      (((wPx : ℚ) - (tw : ℚ)) / 2 + (off : ℚ))| < 1 := by
  refine ⟨rfl, rfl, ?_⟩
  have hdm : wPx - tw = 2 * ((wPx - tw) / 2) + (wPx - tw) % 2 := by omega
  have hr : 0 ≤ (wPx - tw) % 2 ∧ (wPx - tw) % 2 < 2 := by omega
  have hc : ((wPx : ℚ)) - (tw : ℚ) =
      2 * (((wPx - tw) / 2 : ℤ) : ℚ) + (((wPx - tw) % 2 : ℤ) : ℚ) := by
    exact_mod_cast hdm
  have hr0 : (0 : ℚ) ≤ (((wPx - tw) % 2 : ℤ) : ℚ) := by exact_mod_cast hr.1
  have hr1 : (((wPx - tw) % 2 : ℤ) : ℚ) < 2 := by exact_mod_cast hr.2
  unfold caption_tx
  rw [abs_lt]
  push_cast
  constructor <;> linarith

/-! ## Font resolution (`pick_font` of `imageeditor.py`)

`pick_font` tries `ImageFont.truetype(FONT_PATH, pt)` (`FONT_PATH` is a
truthy constant), catching `OSError`; then walks `FALLBACK_FONTS` in
order, catching `OSError` on each; finally returns
`ImageFont.load_default()`.  Paths are abstracted to a type `α` and the
filesystem/loader to `ld : α → ℕ → Except Unit Unit` (`error` =
`OSError`).  The `boxwork.py` variant is the special case
`fallbacks = []`. -/

/-- A resolved font: a truetype resource at a point size, or the
built-in `ImageFont.load_default()`. -/
inductive FontRes (α : Type)
  | truetype (path : α) (pt : ℕ)
  | builtinDefault

/-- The `for p in FALLBACK_FONTS: try ... except OSError: continue`
loop followed by `return ImageFont.load_default()`. -/
def tryFallbacks {α : Type} (ld : α → ℕ → Except Unit Unit) (pt : ℕ) :
    List α → FontRes α
  | [] => FontRes.builtinDefault
  | p :: ps =>
    match ld p pt with
    | Except.ok _ => FontRes.truetype p pt
    | Except.error _ => tryFallbacks ld pt ps

/-- `pick_font(pt)`: primary path first (OSError swallowed), then the
ordered fallback list, then the built-in default. -/
def pick_font {α : Type} (fontPath : α) (fallbacks : List α)
    (ld : α → ℕ → Except Unit Unit) (pt : ℕ) : FontRes α :=
  match ld fontPath pt with
  | Except.ok _ => FontRes.truetype fontPath pt
  | Except.error _ => tryFallbacks ld pt fallbacks

theorem tryFallbacks_all_fail {α : Type} (ld : α → ℕ → Except Unit Unit)
    (pt : ℕ) : ∀ ps : List α, (∀ p ∈ ps, ld p pt = Except.error ()) →
    tryFallbacks ld pt ps = FontRes.builtinDefault := by
  intro ps
  induction ps with
  | nil => intro _; rfl
  | cons p ps ih =>
    intro hall
    unfold tryFallbacks
    rw [hall p (List.mem_cons_self p ps)]
    exact ih fun q hq => hall q (List.mem_cons_of_mem p hq)

theorem tryFallbacks_usable {α : Type} (ld : α → ℕ → Except Unit Unit)
    (pt : ℕ) : ∀ ps : List α,
    tryFallbacks ld pt ps = FontRes.builtinDefault ∨
      ∃ p, p ∈ ps ∧ tryFallbacks ld pt ps = FontRes.truetype p pt ∧
        ld p pt = Except.ok () := by
  intro ps
  induction ps with
  | nil => exact Or.inl rfl
  | cons p ps ih =>
    unfold tryFallbacks
    cases hld : ld p pt with
    | ok u =>
      right
      exact ⟨p, List.mem_cons_self p ps, rfl, by rw [hld]⟩
    | error e =>
      rcases ih with hd | ⟨q, hq, he, hs⟩
      · exact Or.inl hd
      · exact Or.inr ⟨q, List.mem_cons_of_mem p hq, he, hs⟩

theorem tryFallbacks_first_success {α : Type} (ld : α → ℕ → Except Unit Unit)
    (pt : ℕ) (p : α) (hp : ld p pt = Except.ok ()) :
    ∀ l1 l2 : List α, (∀ q ∈ l1, ld q pt = Except.error ()) →
      tryFallbacks ld pt (l1 ++ p :: l2) = FontRes.truetype p pt := by
  intro l1
  induction l1 with
  | nil =>
    intro l2 _
    rw [List.nil_append]
    unfold tryFallbacks
    rw [hp]
  | cons q l1 ih =>
    intro l2 hfail
    rw [List.cons_append]
    unfold tryFallbacks
    rw [hfail q (List.mem_cons_self q l1)]
    exact ih l2 fun r hr => hfail r (List.mem_cons_of_mem q hr)

/-- C9: font resolution always yields a usable font and never surfaces a
load error: the result is either a successfully loaded candidate (the
primary path or a fallback) or the built-in default; if every load
fails the result is the built-in default; if the primary path loads it
wins; and otherwise the first loadable fallback in list order wins. -/
theorem pick_font_total_with_fallback {α : Type} (fontPath : α)
    (fallbacks : List α) (ld : α → ℕ → Except Unit Unit) (pt : ℕ) :
    (pick_font fontPath fallbacks ld pt = FontRes.builtinDefault ∨
      ∃ p, (p = fontPath ∨ p ∈ fallbacks) ∧
        pick_font fontPath fallbacks ld pt = FontRes.truetype p pt ∧
        ld p pt = Except.ok ()) ∧
    ((∀ p, ld p pt = Except.error ()) →
      pick_font fontPath fallbacks ld pt = FontRes.builtinDefault) ∧
    (ld fontPath pt = Except.ok () →
      pick_font fontPath fallbacks ld pt = FontRes.truetype fontPath pt) ∧
    (∀ l1 p l2, fallbacks = l1 ++ p :: l2 →
      ld fontPath pt = Except.error () →
      (∀ q ∈ l1, ld q pt = Except.error ()) →
      ld p pt = Except.ok () →
      pick_font fontPath fallbacks ld pt = FontRes.truetype p pt) := by
  refine ⟨?_, ?_, ?_, ?_⟩
  · unfold pick_font
    cases hld : ld fontPath pt with
    | ok u => exact Or.inr ⟨fontPath, Or.inl rfl, rfl, by rw [hld]⟩
    | error e =>
      rcases tryFallbacks_usable ld pt fallbacks with hd | ⟨q, hq, he, hs⟩
      · exact Or.inl hd
      · exact Or.inr ⟨q, Or.inr hq, he, hs⟩
  · intro hall
    unfold pick_font
    rw [hall fontPath]
    exact tryFallbacks_all_fail ld pt fallbacks fun q _ => hall q
  · intro hok
    unfold pick_font
    rw [hok]
  · intro l1 p l2 hsplit hprim hfail hp
    unfold pick_font
    rw [hprim, hsplit]
    exact tryFallbacks_first_success ld pt p hp l1 l2 hfail

/-- An always-failing loader (every path raises OSError). -/
def failLd : ℕ → ℕ → Except Unit Unit := fun _ _ => Except.error ()

/-- Witness for C9: with every candidate failing to load, `pick_font`
returns the built-in default font. -/
theorem pick_font_total_with_fallback_witness :
    pick_font 0 [1, 2, 3, 4, 5] failLd 20 = FontRes.builtinDefault :=
  (pick_font_total_with_fallback 0 [1, 2, 3, 4, 5] failLd 20).2.1 fun _ => rfl

end Postcard
